import Mathlib

/-
Verification of the circular_buffer repository (src/circular_buffer.h).

Shallow embedding: the storage block `arr` of `capacity` slots is a
`List (Option α)` (a slot is `some v` when it holds a live element and
`none` when it is raw/destroyed memory); `sz` and `head` are the
corresponding fields of the C++ class.  The stored `cap` field of the
class always equals the allocation size, so capacity is modelled as
`arr.length`.  Logical index `i` resolves to physical slot
`(head + i) % cap`, exactly as in the source.
-/

namespace CircBuf

structure CB (α : Type) where
  arr : List (Option α)
  sz : Nat
  head : Nat
deriving DecidableEq, Repr

variable {α : Type}

/-- `capacity()`: the stored `cap` field always equals the allocation size. -/
def cap (b : CB α) : Nat := b.arr.length

/-- Reading physical slot `p` of a raw storage list (dead slots read as `none`). -/
def listGet (l : List (Option α)) (p : Nat) : Option α := l.getD p none

/-- Reading physical slot `p` of the buffer. -/
def slot (b : CB α) (p : Nat) : Option α := listGet b.arr p

/-- `tail()`: physical index of the logical-back element. -/
def tail (b : CB α) : Nat :=
  if b.sz = 0 then b.head else (b.head + b.sz + cap b - 1) % cap b

/-- The default-constructed buffer: no allocation, `sz = 0`, `head = 0`. -/
def emptyCB (α : Type) : CB α := ⟨[], 0, 0⟩

/-- One copying step of `copyToArray`: `dest[d+j] := arr[s+j]` for `j < n`. -/
def copySeg (src : List (Option α)) : List (Option α) → Nat → Nat → Nat → List (Option α)
  | dest, _, _, 0 => dest
  | dest, s, d, n+1 => copySeg src (dest.set d (listGet src s)) (s+1) (d+1) n

/-- `copyToArray` (success path): copy the live elements in logical order into a
fresh block of `m` slots starting at physical slot 0.  The source either is a
single physical run `[head, head+sz)` (branch `head <= tail()`) or wraps:
run `[head, cap)` followed by run `[0, tail]`. -/
def copyToArrayPure (b : CB α) (m : Nat) : List (Option α) :=
  let dest := List.replicate m none
  if b.head ≤ tail b then
    copySeg b.arr dest b.head 0 b.sz
  else
    copySeg b.arr (copySeg b.arr dest b.head 0 (cap b - b.head)) 0 (cap b - b.head) (tail b + 1)

/-- `increase_cap(new_cap)`: if `new_cap >= cap`, allocate `new_cap + 1` slots,
copy the elements to the front of the new block (`clear()` then resets
`head` to 0 and `sz` is restored afterwards). -/
def increaseCap (b : CB α) (n : Nat) : CB α :=
  if cap b ≤ n then { arr := copyToArrayPure b (n+1), sz := b.sz, head := 0 } else b

/-- `ensure_cap()`: grow when `sz + 1 >= cap`, to `increase_cap(2)` if never
allocated and to `increase_cap(2*(cap-1)+1)` otherwise. -/
def ensureCap (b : CB α) : CB α :=
  if cap b ≤ b.sz + 1 then
    (if cap b = 0 then increaseCap b 2 else increaseCap b (2 * (cap b - 1) + 1))
  else b

/-- `push_back(val)`: after `ensure_cap`, construct at physical slot 0 when the
buffer is empty (the source writes `new (arr) T(val_copy)`, ignoring `head`),
else at `(tail() + 1) % cap`. -/
def push_back (b : CB α) (v : α) : CB α :=
  let b1 := ensureCap b
  if b1.sz = 0 then
    { b1 with arr := b1.arr.set 0 (some v), sz := b1.sz + 1 }
  else
    { b1 with arr := b1.arr.set ((tail b1 + 1) % cap b1) (some v), sz := b1.sz + 1 }

/-- `pop_back()`: destroy the element at `tail()`, decrement `sz`. -/
def pop_back (b : CB α) : CB α :=
  { b with arr := b.arr.set (tail b) none, sz := b.sz - 1 }

/-- `push_front(val)`: after `ensure_cap`, move `head` one slot back (only when
nonempty) and construct there. -/
def push_front (b : CB α) (v : α) : CB α :=
  let b1 := ensureCap b
  let h := if b1.sz = 0 then b1.head else (b1.head + cap b1 - 1) % cap b1
  { b1 with arr := b1.arr.set h (some v), head := h, sz := b1.sz + 1 }

/-- `pop_front()`: destroy the element at `head`, advance `head`, decrement `sz`. -/
def pop_front (b : CB α) : CB α :=
  { b with arr := b.arr.set b.head none, head := (b.head + 1) % cap b, sz := b.sz - 1 }

/-- The destruction loop of `clear()`: destroy the elements at logical
positions `0 .. n-1`. -/
def destroyRun (arr : List (Option α)) (h c : Nat) : Nat → List (Option α)
  | 0 => arr
  | n+1 => (destroyRun arr h c n).set ((h + n) % c) none

/-- `clear()`: destroy every live element, reset `sz` and `head` to 0. -/
def clear (b : CB α) : CB α :=
  { arr := destroyRun b.arr b.head (cap b) b.sz, sz := 0, head := 0 }

/-- `reserve(desired_capacity)` forwards to `increase_cap`. -/
def reserve (b : CB α) (n : Nat) : CB α := increaseCap b n

/-- The logical sequence of the buffer as read through `operator[]`/iterators:
position `i` reads physical slot `(head + i) % cap`. -/
def toList (b : CB α) : List (Option α) :=
  (List.range b.sz).map (fun i => slot b ((b.head + i) % cap b))

/-- `front()`: reads `arr[head]`. -/
def frontCB (b : CB α) : Option α := slot b b.head

/-- `back()`: reads `arr[tail()]`. -/
def backCB (b : CB α) : Option α := slot b (tail b)

/-- `std::swap(*it_p, *it_q)` on the logical positions `p` and `q`. -/
def swapLog (b : CB α) (p q : Nat) : CB α :=
  let pp := (b.head + p) % cap b
  let qq := (b.head + q) % cap b
  { b with arr := (b.arr.set pp (slot b qq)).set qq (slot b pp) }

/-- The front branch loop of `insert`: `while (cur < pos) { swap(*cur, *(cur+1)); ++cur; }`,
started at `cur` with `pos - cur` iterations left. -/
def insFrontSwaps : CB α → Nat → Nat → CB α
  | b, _, 0 => b
  | b, cur, n+1 => insFrontSwaps (swapLog b cur (cur+1)) (cur+1) n

/-- The back branch loop of `insert`: `while (cur > pos) { swap(*cur, *(cur-1)); --cur; }`,
recursing on the current index `cur`. -/
def insBackSwaps : CB α → Nat → Nat → CB α
  | b, _, 0 => b
  | b, i, c+1 => if i ≤ c then insBackSwaps (swapLog b (c+1) c) i c else b

/-- `insert(pos, val)` with `pos` at logical index `i`: the branch condition is
`pos - begin() < end() - pos` on iterator differences. -/
def insert (b : CB α) (i : Nat) (v : α) : CB α :=
  if (i : Int) < (b.sz : Int) - (i : Int) then
    insFrontSwaps (push_front b v) 0 i
  else
    let b1 := push_back b v
    insBackSwaps b1 i (b1.sz - 1)

/-- The front branch loop of single `erase`: `while (cur > begin()) { swap(*(cur-1), *cur); --cur; }`. -/
def erFrontSwaps : CB α → Nat → CB α
  | b, 0 => b
  | b, c+1 => erFrontSwaps (swapLog b c (c+1)) c

/-- The back branch loop of single `erase`: `while (cur < end() - 1) { swap(*(cur+1), *cur); ++cur; }`,
with `n` iterations left. -/
def erBackSwaps : CB α → Nat → Nat → CB α
  | b, _, 0 => b
  | b, cur, n+1 => erBackSwaps (swapLog b (cur+1) cur) (cur+1) n

/-- `erase(pos)` with `pos` at logical index `i`. -/
def erase (b : CB α) (i : Nat) : CB α :=
  if (i : Int) < (b.sz : Int) - (i : Int) then
    pop_front (erFrontSwaps b i)
  else
    pop_back (erBackSwaps b i (b.sz - 1 - i))

/-- `pop_front()` executed `n` times. -/
def popFrontN : CB α → Nat → CB α
  | b, 0 => b
  | b, n+1 => popFrontN (pop_front b) n

/-- `pop_back()` executed `n` times. -/
def popBackN : CB α → Nat → CB α
  | b, 0 => b
  | b, n+1 => popBackN (pop_back b) n

/-- The front branch loop of range `erase`: `end_2 = end_1 + d` with
`d = last - first`, and `while (end_1 > begin()) { swap(*end_1, *end_2); --end_1, --end_2; }`
(note: the loop stops once `end_1` reaches index 0, without swapping there). -/
def erRangeFrontSwaps (d : Nat) : CB α → Nat → CB α
  | b, 0 => b
  | b, c+1 => erRangeFrontSwaps d (swapLog b (c+1) (c+1+d)) c

/-- The back branch loop of range `erase`: `begin_2 = begin_1 - d`, and
`while (begin_1 < end()) { swap(*begin_1, *begin_2); ++begin_1, ++begin_2; }`,
with `n` iterations left. -/
def erRangeBackSwaps (d : Nat) : CB α → Nat → Nat → CB α
  | b, _, 0 => b
  | b, j, n+1 => erRangeBackSwaps d (swapLog b j (j - d)) (j+1) n

/-- `erase(first, last)` with `first`, `last` at logical indices `f`, `l`;
branch condition `first - begin() < end() - last`. -/
def eraseRange (b : CB α) (f l : Nat) : CB α :=
  if (f : Int) < (b.sz : Int) - (l : Int) then
    let b1 := if 0 < f then erRangeFrontSwaps (l - f) b (f - 1) else b
    popFrontN b1 (l - f)
  else
    let b1 := if l ≠ b.sz then erRangeBackSwaps (l - f) b l (b.sz - l) else b
    popBackN b1 (l - f)

/-- A mutation of the public push/pop interface. -/
inductive Op (α : Type) where
  | pushB (v : α)
  | pushF (v : α)
  | popB
  | popF
deriving DecidableEq, Repr

/-- Apply one push/pop operation to the buffer. -/
def applyOp (b : CB α) : Op α → CB α
  | .pushB v => push_back b v
  | .pushF v => push_front b v
  | .popB => pop_back b
  | .popF => pop_front b

/-- Run a sequence of push/pop operations. -/
def runOps (b : CB α) (ops : List (Op α)) : CB α := ops.foldl applyOp b

/-- The reference double-ended queue: the same operations on a plain list. -/
def dequeStep (l : List α) : Op α → List α
  | .pushB v => l ++ [v]
  | .pushF v => v :: l
  | .popB => l.dropLast
  | .popF => l.tail

/-- Run a sequence of operations on the reference deque, starting empty. -/
def dequeRun (ops : List (Op α)) : List α := ops.foldl dequeStep []

/-- `true` when each prefix of the operation sequence never pops an empty
container, starting from size `n`. -/
def validFrom : Nat → List (Op α) → Bool
  | _, [] => true
  | n, .pushB _ :: rest => validFrom (n+1) rest
  | n, .pushF _ :: rest => validFrom (n+1) rest
  | n, .popB :: rest => decide (0 < n) && validFrom (n-1) rest
  | n, .popF :: rest => decide (0 < n) && validFrom (n-1) rest

/-- Number of push operations in a sequence. -/
def numPushes : List (Op α) → Nat
  | [] => 0
  | .pushB _ :: rest => numPushes rest + 1
  | .pushF _ :: rest => numPushes rest + 1
  | .popB :: rest => numPushes rest
  | .popF :: rest => numPushes rest

/-- Number of pop operations in a sequence. -/
def numPops : List (Op α) → Nat
  | [] => 0
  | .pushB _ :: rest => numPops rest
  | .pushF _ :: rest => numPops rest
  | .popB :: rest => numPops rest + 1
  | .popF :: rest => numPops rest + 1

/-- `n` repeated `push_back`s starting from the default-constructed buffer. -/
def pushN (n : Nat) : CB Nat :=
  (List.range n).foldl (fun b i => push_back b (i+1)) (emptyCB Nat)

/-- The usable capacity: `ensure_cap` keeps `size < capacity`, so at most
`capacity - 1` elements are ever stored in an allocation of `capacity` slots. -/
def usableCap (b : CB α) : Nat := cap b - 1

/-- The state invariant of the data model (spec section 3): `size < capacity`
whenever allocated, `head` in range, the `size` slots of the circular run
starting at `head` are live, and no slot outside that run is live. -/
def WF (b : CB α) : Prop :=
  (cap b = 0 → b.sz = 0 ∧ b.head = 0) ∧
  (cap b ≠ 0 → b.head < cap b ∧ b.sz < cap b) ∧
  (∀ i < b.sz, (slot b ((b.head + i) % cap b)).isSome) ∧
  (∀ p < cap b, (∀ i < b.sz, (b.head + i) % cap b ≠ p) → slot b p = none)

instance (b : CB α) [DecidableEq α] : Decidable (WF b) := by
  unfold WF; infer_instance

/-- The values of the live logical sequence (what the copy constructor reads
through `*it` as it walks `begin()..end()` of the source). -/
def liveVals (b : CB α) : List α :=
  (List.range b.sz).filterMap (fun i => slot b ((b.head + i) % cap b))

/-- `push_back` each value in turn (the copy constructor's loop). -/
def pushAll (b : CB α) (vs : List α) : CB α := vs.foldl push_back b

/-- The copy constructor: default-construct, `reserve(other.size())`, then
`push_back(*it)` for each element of the source in logical order. -/
def copyCB (b : CB α) : CB α := pushAll (reserve (emptyCB α) b.sz) (liveVals b)

/-
Iterators (`basic_iterator`): a node holds a back-pointer to the buffer and a
logical index `arr_index`.  Dereference resolves through the buffer that is
current at the moment of access, so the model passes the buffer separately.
-/

/-- An iterator's own state: just the logical index `arr_index` (the buffer
back-pointer is the separate `CB` argument of the access functions). -/
structure CBIter where
  idx : Nat
deriving DecidableEq, Repr

/-- `get_arr_pos(index)`: logical-to-physical translation. -/
def getArrPos (b : CB α) (index : Nat) : Nat := (b.head + index) % cap b

/-- `operator*`: reads `buf->arr[buf->get_arr_pos(arr_index)]` of the buffer
current at the access. -/
def iterDeref (b : CB α) (it : CBIter) : Option α := slot b (getArrPos b it.idx)

/-- `operator[](k)`: reads `buf->arr[buf->get_arr_pos(arr_index + k)]`. -/
def iterIndex (b : CB α) (it : CBIter) (k : Nat) : Option α := slot b (getArrPos b (it.idx + k))

/-- `operator+(it, k)`: adjusts only the logical index. -/
def iterAdd (it : CBIter) (k : Nat) : CBIter := ⟨it.idx + k⟩

/-- `operator-(a, b)`: difference of the logical indices. -/
def iterSub (a b : CBIter) : Int := (a.idx : Int) - (b.idx : Int)

/-
Exception-injection model of the growth path (`copyToArray` / `increase_cap`),
for the strong-guarantee claim.  `failsAt k` says the `k`-th element
copy-construction performed inside `copyToArray` throws.  The outcome records
whether the freshly allocated block was passed to `operator delete` before the
exception left (`freed` in `thrown`), or, when the function returns normally,
whether the block it hands back was deallocated mid-way (`freedInUse`).
-/

/-- Outcome of `copyToArray` under exception injection. -/
inductive CopyOutcome (α : Type) where
  | ok (freedInUse : Bool) (dest : List (Option α))
  | thrown (freed : Bool) (dest : List (Option α))
deriving DecidableEq, Repr

/-- `delete_array(dest, s, s+n-1)`: destroy `n` consecutive constructed slots. -/
def clearSeg : List (Option α) → Nat → Nat → List (Option α)
  | d, _, 0 => d
  | d, s, n+1 => clearSeg (d.set s none) (s+1) n

/-- The first copying loop of `copyToArray` (also the whole function in the
non-wrapped branch): `j` is the number of copies already made (`j = i - head`);
on a throw it destroys the copies made so far and frees `dest` only when
`i > head`, then propagates. -/
def copyLoop1 (src : List (Option α)) (failsAt : Nat → Bool) (h : Nat) :
    List (Option α) → Nat → Nat → CopyOutcome α
  | dest, _, 0 => .ok false dest
  | dest, j, n+1 =>
    if failsAt j then
      if 0 < j then .thrown true (clearSeg dest 0 j) else .thrown false dest
    else copyLoop1 src failsAt h (dest.set j (listGet src (h + j))) (j+1) n

/-- The second copying loop of the wrapped branch: source slot `i`, destination
slot `i + head_len`, copy invocation number `head_len + i`.  Its catch block
destroys the copies this loop made and frees `dest` when `i > 0`, but contains
no rethrow, so the loop continues with the next `i`. -/
def copyLoop2 (src : List (Option α)) (failsAt : Nat → Bool) (headLen : Nat) :
    List (Option α) → Bool → Nat → Nat → CopyOutcome α
  | dest, freed, _, 0 => .ok freed dest
  | dest, freed, i, n+1 =>
    if failsAt (headLen + i) then
      if 0 < i then copyLoop2 src failsAt headLen (clearSeg dest headLen i) true (i+1) n
      else copyLoop2 src failsAt headLen dest freed (i+1) n
    else copyLoop2 src failsAt headLen (dest.set (i + headLen) (listGet src i)) freed (i+1) n

/-- `copyToArray(dest)` under exception injection, over a fresh block of `m`
slots. -/
def copyToArrayEx (b : CB α) (failsAt : Nat → Bool) (m : Nat) : CopyOutcome α :=
  let dest := List.replicate m none
  if b.head ≤ tail b then
    copyLoop1 b.arr failsAt b.head dest 0 b.sz
  else
    match copyLoop1 b.arr failsAt b.head dest 0 (cap b - b.head) with
    | .thrown fr d => .thrown fr d
    | .ok _ d => copyLoop2 b.arr failsAt (cap b - b.head) d false 0 (tail b + 1)

/-- Outcome of `increase_cap` under exception injection: either it returns with
a resulting buffer (`freedInUse` set when the block it installed was
deallocated mid-way), or an exception propagates to the caller with the
original buffer (`newBlockFreed` records whether the fresh block was freed
before propagation). -/
inductive GrowOutcome (α : Type) where
  | ok (b : CB α) (freedInUse : Bool)
  | raised (b : CB α) (newBlockFreed : Bool)
deriving DecidableEq, Repr

/-- `increase_cap(n)` under exception injection: allocate `n + 1` slots, run
`copyToArray`; on success install the new block (old elements destroyed, `head`
reset by `clear()`), on a throw propagate with the original buffer untouched. -/
def increaseCapEx (b : CB α) (failsAt : Nat → Bool) (n : Nat) : GrowOutcome α :=
  if cap b ≤ n then
    match copyToArrayEx b failsAt (n+1) with
    | .thrown fr _ => .raised b fr
    | .ok fr dest => .ok { arr := dest, sz := b.sz, head := 0 } fr
  else .ok b false

/-- `reserve(n)` under exception injection. -/
def reserveEx (b : CB α) (failsAt : Nat → Bool) (n : Nat) : GrowOutcome α :=
  increaseCapEx b failsAt n

/-- A reachable state with `sz = 0` but `head = 2`: two `push_back`s followed by
two `pop_front`s. -/
def cbEmptied : CB Nat :=
  runOps (emptyCB Nat) [.pushB 1, .pushB 2, .popF, .popF]

/-- The operations of `cbEmptied` followed by one more `push_back`: a pure
`push_back`/`pop_front` sequence. -/
def ops6 : List (Op Nat) :=
  [.pushB 1, .pushB 2, .popF, .popF, .pushB 3]

/-- A reachable wrapped state (`head > tail`): logical sequence `[3,4,5,6,7]`
stored as `arr = [7, _, 3, 4, 5, 6]` with `head = 2`. -/
def cbWrapped : CB Nat :=
  runOps (emptyCB Nat)
    [.pushB 1, .pushB 2, .pushB 3, .popF, .popF, .pushB 4, .pushB 5, .pushB 6, .pushB 7]

/-- The buffer `[10]` (source of the growth whose first element copy throws). -/
def cbOne : CB Nat := push_back (emptyCB Nat) 10

section Lemmas

theorem listGet_nil (p : Nat) : listGet ([] : List (Option α)) p = none := by
  cases p <;> rfl

theorem listGet_set_none (l : List (Option α)) (p : Nat) :
    listGet (l.set p none) p = none := by
  induction l generalizing p with
  | nil => simp [List.set, listGet_nil]
  | cons a t ih =>
    cases p with
    | zero => rfl
    | succ q => simpa [List.set, listGet, List.getD] using ih q

theorem listGet_set_ne (l : List (Option α)) (p q : Nat) (v : Option α) (h : p ≠ q) :
    listGet (l.set p v) q = listGet l q := by
  induction l generalizing p q with
  | nil => simp [List.set]
  | cons a t ih =>
    cases p with
    | zero =>
      cases q with
      | zero => exact absurd rfl h
      | succ m => rfl
    | succ p' =>
      cases q with
      | zero => rfl
      | succ m =>
        simpa [List.set, listGet, List.getD] using ih p' m (by omega)

theorem length_copySeg (src : List (Option α)) :
    ∀ (n : Nat) (dest : List (Option α)) (s d : Nat),
      (copySeg src dest s d n).length = dest.length := by
  intro n
  induction n with
  | zero => intro dest s d; rfl
  | succ k ih =>
    intro dest s d
    rw [copySeg, ih]
    simp

theorem copyToArrayPure_length (b : CB α) (m : Nat) :
    (copyToArrayPure b m).length = m := by
  unfold copyToArrayPure
  split <;> simp [length_copySeg]

theorem cap_increaseCap (b : CB α) (n : Nat) (h : cap b ≤ n) :
    cap (increaseCap b n) = n + 1 := by
  unfold increaseCap
  rw [if_pos h]
  simpa [cap] using copyToArrayPure_length b (n+1)

theorem increaseCap_sz (b : CB α) (n : Nat) : (increaseCap b n).sz = b.sz := by
  unfold increaseCap
  split <;> rfl

theorem ensureCap_sz (b : CB α) : (ensureCap b).sz = b.sz := by
  unfold ensureCap
  split
  · split <;> rw [increaseCap_sz]
  · rfl

theorem ensureCap_eq_self (b : CB α) (h : b.sz + 1 < cap b) : ensureCap b = b := by
  unfold ensureCap
  rw [if_neg (by omega)]

theorem sz_push_back (b : CB α) (v : α) : (push_back b v).sz = b.sz + 1 := by
  simp only [push_back]
  split <;> simp [ensureCap_sz]

theorem sz_push_front (b : CB α) (v : α) : (push_front b v).sz = b.sz + 1 := by
  simp only [push_front, ensureCap_sz]

theorem cap_push_back (b : CB α) (v : α) (h : b.sz + 2 ≤ cap b) :
    cap (push_back b v) = cap b := by
  simp only [push_back]
  rw [ensureCap_eq_self b (by omega)]
  split <;> simp [cap]

end Lemmas

/-- Claim C1: `erase(pos)` removes exactly the element at `pos` preserving the
order of the rest, and `erase(first, last)` removes exactly the closed-open
range preserving the order of the remainder.  The code violates the range
form: on the buffer `[1,2,3,4]`, `erase(begin()+1, begin()+2)` takes the
front branch, whose swap loop `while (end_1 > begin())` never swaps at index
0, so the element before the range is popped instead of shifted; the result
is `[2,3,4]` where the claim requires `[1,3,4]`. -/
theorem C1_eraseRange_eval :
    toList (pushN 4) = [some 1, some 2, some 3, some 4] ∧
    toList (eraseRange (pushN 4) 1 2) = [some 2, some 3, some 4] ∧
    toList (eraseRange (pushN 4) 1 2) ≠ [some 1, some 3, some 4] := by
  decide

/-- Claim C2: a throwing element copy during growth must destroy the partial
copies, release the new block, propagate, and leave the original unchanged.
The code violates this twice.  First conjunct: on the buffer `[10]`,
`reserve(5)` with the very first copy throwing propagates with the original
unchanged but never frees the new block (`operator delete(dest)` sits under
`if (i > head)`), a leak.  Second conjunct: on a wrapped buffer with
logical content `[3,4,5,6,7]`, a throw in the second copy loop is swallowed
(its catch block has no rethrow), so growth "succeeds" with an uninitialized
hole at logical position 4 instead of propagating.  Third conjunct: the
mis-grown buffer claims 5 live elements but its fifth logical slot is dead. -/
theorem C2_growth_exception_eval :
    reserveEx cbOne (fun k => k == 0) 5 = GrowOutcome.raised cbOne false ∧
    reserveEx cbWrapped (fun k => k == 4) 11 =
      GrowOutcome.ok ⟨[some 3, some 4, some 5, some 6] ++ List.replicate 8 none, 5, 0⟩ false ∧
    ((⟨[some 3, some 4, some 5, some 6] ++ List.replicate 8 none, 5, 0⟩ : CB Nat).sz = 5 ∧
      slot (⟨[some 3, some 4, some 5, some 6] ++ List.replicate 8 none, 5, 0⟩ : CB Nat) 4 = none) := by
  decide

/-- Claim C3 counterexample: the claim says the first allocation gives
`capacity() = 2`, but `increase_cap(2)` allocates `new_cap + 1` slots and sets
`cap = new_cap + 1`, so after the first `push_back` the capacity is 3. -/
theorem C3_counterexample : cap (pushN 1) = 3 ∧ cap (pushN 1) ≠ 2 := by
  decide

/-- Claim C4: `insert(pos, v)` places `v` at the logical index of `pos` keeping
all other elements in order.  The code violates this on a reachable empty
buffer with `head = 2` (two pushes then two pops): `insert(begin(), 42)` takes
the back branch, and `push_back` on an empty buffer constructs at physical
slot 0 (`new (arr) T`), ignoring `head`; reading logical position 0 afterwards
resolves to slot `(2+0) % 3`, a dead slot, instead of the inserted 42. -/
theorem C4_insert_eval :
    toList cbEmptied = [] ∧
    toList (insert cbEmptied 0 42) = [none] ∧
    toList (insert cbEmptied 0 42) ≠ [some 42] := by
  decide

/-- Claim C5 counterexample: the claim says `reserve(n)` is a no-op (state,
including `capacity()`, unchanged) whenever `n` does not exceed the usable
capacity.  On the default-constructed buffer the usable capacity is 0 and
`n = 0` does not exceed it, yet `increase_cap` runs its `new_cap >= cap`
branch and reallocates: the capacity changes from 0 to 1. -/
theorem C5_counterexample :
    usableCap (emptyCB Nat) = 0 ∧
    reserve (emptyCB Nat) 0 ≠ emptyCB Nat ∧
    cap (reserve (emptyCB Nat) 0) = 1 := by
  decide

/-- Claim C6: every `push_back`/`pop_front` sequence must behave as a FIFO
queue.  The code violates this on `push_back 1, push_back 2, pop_front,
pop_front, push_back 3`: the reference queue's front is 3, but the buffer
constructed 3 at physical slot 0 while `head = 2`, so `front()` reads a dead
slot. -/
theorem C6_fifo_eval :
    dequeRun ops6 = [3] ∧
    frontCB (runOps (emptyCB Nat) ops6) = none ∧
    toList (runOps (emptyCB Nat) ops6) = [none] ∧
    toList (runOps (emptyCB Nat) ops6) ≠ (dequeRun ops6).map some := by
  decide

/-- Claim C7: every public operation preserves the invariant that the `size`
live slots form the circular run starting at `head` and no other slot is
live.  The code violates preservation: the reachable state `cbEmptied`
(`sz = 0`, `head = 2`) satisfies the invariant, but `push_back 3` on it
constructs at physical slot 0 instead of at `head`, leaving the single live
element outside the run that starts at `head`. -/
theorem C7_invariant_eval : WF cbEmptied ∧ ¬ WF (push_back cbEmptied 3) := by
  decide

/-- Claim C8: dereference resolves to physical slot
`(head + logicalIndex) % capacity` using the buffer state current at the
access; `it[k]` coincides with `*(it + k)`; and iterator difference is the
difference of the logical indices. -/
theorem C8_iterator :
    (∀ (α : Type) (b : CB α) (it : CBIter),
        iterDeref b it = slot b ((b.head + it.idx) % cap b)) ∧
    (∀ (α : Type) (b : CB α) (it : CBIter) (k : Nat),
        iterIndex b it k = iterDeref b (iterAdd it k)) ∧
    (∀ (a c : CBIter), iterSub a c = (a.idx : Int) - (c.idx : Int)) :=
  ⟨fun _ _ _ => rfl, fun _ _ _ _ => rfl, fun _ _ => rfl⟩

/-- Claim C3 (amended): when an insertion would make `size + 1` reach the
current capacity, the capacity becomes `2*(capacity-1)+2`, i.e. exactly
`2*capacity` (or 3 slots when never allocated), because `increase_cap(n)`
allocates and records `n + 1` slots; otherwise the capacity is unchanged.
Starting empty, repeated `push_back` therefore produces the `capacity()`
progression 0, 3, 6, 12, 24, ... -/
theorem C3_amended :
    (∀ (α : Type) (b : CB α),
        cap (ensureCap b) =
          if cap b ≤ b.sz + 1 then (if cap b = 0 then 3 else 2 * cap b) else cap b) ∧
    cap (pushN 0) = 0 ∧ cap (pushN 1) = 3 ∧ cap (pushN 2) = 3 ∧ cap (pushN 3) = 6 ∧
    cap (pushN 5) = 6 ∧ cap (pushN 6) = 12 ∧ cap (pushN 11) = 12 ∧ cap (pushN 12) = 24 := by
  refine ⟨?_, by decide, by decide, by decide, by decide, by decide, by decide, by decide, by decide⟩
  intro α b
  unfold ensureCap
  by_cases h1 : cap b ≤ b.sz + 1
  · rw [if_pos h1, if_pos h1]
    by_cases h2 : cap b = 0
    · rw [if_pos h2, if_pos h2, cap_increaseCap b 2 (by omega)]
    · rw [if_neg h2, if_neg h2, cap_increaseCap b (2 * (cap b - 1) + 1) (by omega)]
      omega
  · rw [if_neg h1, if_neg h1]

/-- Claim C5 (amended): `reserve(n)` reallocates exactly when `n ≥ capacity()`
(equivalently, when `n` exceeds the usable capacity, except that a
never-allocated buffer also reallocates at `n = 0`); it then holds at least
`n` elements (`capacity` becomes `n + 1`) with `size` unchanged, and it is an
exact no-op when `n < capacity()`. -/
theorem C5_amended :
    ∀ (α : Type) (b : CB α) (n : Nat),
      (cap b ≤ n →
        cap (reserve b n) = n + 1 ∧ n ≤ usableCap (reserve b n) ∧ (reserve b n).sz = b.sz) ∧
      (n < cap b → reserve b n = b) := by
  intro α b n
  constructor
  · intro h
    refine ⟨cap_increaseCap b n h, ?_, increaseCap_sz b n⟩
    unfold usableCap reserve
    rw [cap_increaseCap b n h]
    omega
  · intro h
    unfold reserve increaseCap
    rw [if_neg (by omega)]

/-- Witness for C5: on the buffer `[1,2]` (capacity 3), `reserve 5` grows the
capacity to 6 keeping `size = 2`, and `reserve 1` is an exact no-op. -/
theorem C5_amended_witness :
    cap (reserve (pushN 2) 5) = 6 ∧ (reserve (pushN 2) 5).sz = 2 ∧
      reserve (pushN 2) 1 = pushN 2 := by
  refine ⟨?_, ?_, (C5_amended Nat (pushN 2) 1).2 (by decide)⟩
  · exact ((C5_amended Nat (pushN 2) 5).1 (by decide)).1
  · have h := ((C5_amended Nat (pushN 2) 5).1 (by decide)).2.2
    simpa using h

section SizeAccounting

theorem destroyRun_slot_none (arr : List (Option α)) (h c : Nat) :
    ∀ (n : Nat) (i : Nat), i < n → listGet (destroyRun arr h c n) ((h + i) % c) = none := by
  intro n
  induction n with
  | zero => intro i hi; omega
  | succ k ih =>
    intro i hi
    rw [destroyRun]
    by_cases he : (h + i) % c = (h + k) % c
    · rw [he]
      exact listGet_set_none _ _
    · rw [listGet_set_ne _ _ _ _ (fun hq => he hq.symm)]
      have hik : i ≠ k := fun hq => he (by rw [hq])
      exact ih i (by omega)

theorem destroyRun_length (arr : List (Option α)) (h c : Nat) (n : Nat) :
    (destroyRun arr h c n).length = arr.length := by
  induction n with
  | zero => rfl
  | succ k ih => rw [destroyRun]; simpa using ih

theorem runOps_sz (ops : List (Op α)) :
    ∀ (b : CB α), validFrom b.sz ops = true →
      (runOps b ops).sz + numPops ops = b.sz + numPushes ops := by
  induction ops with
  | nil => intro b _; rfl
  | cons op rest ih =>
    intro b hv
    cases op with
    | pushB v =>
      have hih := ih (push_back b v) (by rw [sz_push_back]; exact hv)
      rw [sz_push_back] at hih
      show (runOps (push_back b v) rest).sz + numPops rest = b.sz + (numPushes rest + 1)
      omega
    | pushF v =>
      have hih := ih (push_front b v) (by rw [sz_push_front]; exact hv)
      rw [sz_push_front] at hih
      show (runOps (push_front b v) rest).sz + numPops rest = b.sz + (numPushes rest + 1)
      omega
    | popB =>
      simp only [validFrom, Bool.and_eq_true, decide_eq_true_eq] at hv
      obtain ⟨hpos, hv'⟩ := hv
      have hih := ih (pop_back b) hv'
      have hsz : (pop_back b).sz = b.sz - 1 := rfl
      rw [hsz] at hih
      show (runOps (pop_back b) rest).sz + (numPops rest + 1) = b.sz + numPushes rest
      omega
    | popF =>
      simp only [validFrom, Bool.and_eq_true, decide_eq_true_eq] at hv
      obtain ⟨hpos, hv'⟩ := hv
      have hih := ih (pop_front b) hv'
      have hsz : (pop_front b).sz = b.sz - 1 := rfl
      rw [hsz] at hih
      show (runOps (pop_front b) rest).sz + (numPops rest + 1) = b.sz + numPushes rest
      omega

end SizeAccounting

/-- Claim C9: `pop_back`, `pop_front` and `clear` never change `capacity()`;
`clear` destroys every live element and resets `size` to 0 and `head` to 0;
and from empty, any valid push/pop sequence of `k` pushes and `m` pops
(valid: no prefix pops more than was pushed, so in particular `m ≤ k`)
leaves `size() = k - m`. -/
theorem C9_pops_clear_size :
    (∀ (α : Type) (b : CB α),
        cap (pop_back b) = cap b ∧ cap (pop_front b) = cap b ∧ cap (clear b) = cap b ∧
        (clear b).sz = 0 ∧ (clear b).head = 0 ∧
        (∀ i, i < b.sz → slot (clear b) ((b.head + i) % cap b) = none)) ∧
    (∀ (α : Type) (ops : List (Op α)), validFrom 0 ops = true →
        (runOps (emptyCB α) ops).sz = numPushes ops - numPops ops) := by
  constructor
  · intro α b
    refine ⟨by simp [pop_back, cap], by simp [pop_front, cap], ?_, rfl, rfl, ?_⟩
    · simp [clear, cap, destroyRun_length]
    · intro i hi
      exact destroyRun_slot_none b.arr b.head (cap b) b.sz i hi
  · intro α ops hv
    have h := runOps_sz ops (emptyCB α) hv
    have h0 : (emptyCB α).sz = 0 := rfl
    rw [h0] at h
    omega

/-- Witness for C9: clearing the buffer `[1,2]` kills its first live slot, and
the sequence `push_back 5, push_back 6, pop_front` leaves `size() = 2 - 1`. -/
theorem C9_witness :
    slot (clear (pushN 2)) (((pushN 2).head + 0) % cap (pushN 2)) = none ∧
    (runOps (emptyCB Nat) [Op.pushB 5, Op.pushB 6, Op.popF]).sz =
      numPushes [Op.pushB 5, Op.pushB 6, Op.popF] - numPops [Op.pushB 5, Op.pushB 6, Op.popF] := by
  constructor
  · exact (C9_pops_clear_size.1 Nat (pushN 2)).2.2.2.2.2 0 (by decide)
  · exact C9_pops_clear_size.2 Nat [Op.pushB 5, Op.pushB 6, Op.popF] (by decide)

section CopyCtor

theorem filterMap_range_isSome_length (f : Nat → Option α) :
    ∀ (n : Nat), (∀ i, i < n → (f i).isSome) → ((List.range n).filterMap f).length = n := by
  intro n
  induction n with
  | zero => intro _; rfl
  | succ k ih =>
    intro h
    obtain ⟨y, hy⟩ := Option.isSome_iff_exists.mp (h k (by omega))
    rw [List.range_succ, List.filterMap_append]
    simp [hy, ih (fun i hi => h i (by omega))]

theorem liveVals_length (b : CB α)
    (h : ∀ i, i < b.sz → (slot b ((b.head + i) % cap b)).isSome) :
    (liveVals b).length = b.sz :=
  filterMap_range_isSome_length _ b.sz h

theorem pushAll_cap_sz (vs : List α) :
    ∀ (b : CB α), b.sz + vs.length + 1 ≤ cap b →
      cap (pushAll b vs) = cap b ∧ (pushAll b vs).sz = b.sz + vs.length := by
  induction vs with
  | nil => intro b _; exact ⟨rfl, by simp [pushAll]⟩
  | cons v vs ih =>
    intro b hb
    have hlen : (v :: vs).length = vs.length + 1 := rfl
    rw [hlen] at hb
    have hcap : cap (push_back b v) = cap b := cap_push_back b v (by omega)
    have hsz : (push_back b v).sz = b.sz + 1 := sz_push_back b v
    have hstep : pushAll b (v :: vs) = pushAll (push_back b v) vs := rfl
    have hih := ih (push_back b v) (by rw [hcap, hsz]; omega)
    refine ⟨?_, ?_⟩
    · rw [hstep, hih.1, hcap]
    · rw [hstep, hih.2, hsz, hlen]
      omega

theorem cap_reserve_empty (m : Nat) : cap (reserve (emptyCB α) m) = m + 1 :=
  cap_increaseCap (emptyCB α) m (Nat.zero_le m)

theorem sz_reserve_empty (m : Nat) : (reserve (emptyCB α) m).sz = 0 :=
  increaseCap_sz (emptyCB α) m

end CopyCtor

/-- Claim C10: for every source buffer (with its live run actually live, as the
copy constructor dereferences every source position), the copy constructor
produces `capacity() = size() + 1` regardless of the source's own capacity:
it reserves `other.size()` on a fresh buffer (allocating `size() + 1` slots)
and the subsequent `push_back`s never re-grow. -/
theorem C10_copy_capacity :
    ∀ (α : Type) (b : CB α),
      (∀ i, i < b.sz → (slot b ((b.head + i) % cap b)).isSome) →
      cap (copyCB b) = b.sz + 1 := by
  intro α b h
  have hlv : (liveVals b).length = b.sz := liveVals_length b h
  have hbase : cap (reserve (emptyCB α) b.sz) = b.sz + 1 := cap_reserve_empty b.sz
  have hsz : (reserve (emptyCB α) b.sz).sz = 0 := sz_reserve_empty b.sz
  have hpa := pushAll_cap_sz (liveVals b) (reserve (emptyCB α) b.sz) (by rw [hbase, hsz, hlv]; omega)
  unfold copyCB
  rw [hpa.1, hbase]

/-- Witness for C10: copy-constructing from the empty buffer allocates and
yields capacity 1, not 0. -/
theorem C10_copy_capacity_witness : cap (copyCB (emptyCB Nat)) = 1 := by
  have h := C10_copy_capacity Nat (emptyCB Nat) (by decide)
  simpa using h

end CircBuf
